import Mathlib

/-!
Verification of the nested cross-validation / hyperparameter-aggregation
pipeline of `scripts/PPG_models.py`.

The Python values that can appear as hyperparameter values are ints,
floats and strings; they are embedded as the inductive type `HValue`.
Python floats are modelled by exact rationals, machine integers by `Int`.
-/

/-- A hyperparameter value: a Python `int`, `float` or `str`.
Mirrors the dynamic types that `GridSearchCV.best_params_` can contain. -/
inductive HValue where
  | VInt : Int → HValue
  | VFloat : ℚ → HValue
  | VStr : String → HValue
deriving DecidableEq

/-- Python's `isinstance(x, (float, int))` test, line 180 of `PPG_models.py`. -/
def isNumericV : HValue → Bool
  | HValue.VInt _ => true
  | HValue.VFloat _ => true
  | HValue.VStr _ => false

/-- Python's `isinstance(x, (int, str))` test, line 183 of `PPG_models.py`. -/
def isIntOrStrV : HValue → Bool
  | HValue.VInt _ => true
  | HValue.VFloat _ => false
  | HValue.VStr _ => true

/-- Python's `isinstance(x, int)` test (describes all-integer value lists). -/
def isIntV : HValue → Bool
  | HValue.VInt _ => true
  | _ => false

/-- Python's `isinstance(x, float)` test (describes value lists with a float). -/
def isFloatV : HValue → Bool
  | HValue.VFloat _ => true
  | _ => false

/-- Numeric content of a value (junk `0` for strings; only used under the
all-numeric guard, where no string occurs). -/
def toQ : HValue → ℚ
  | HValue.VInt z => (z : ℚ)
  | HValue.VFloat q => q
  | HValue.VStr _ => 0

/-- The mean `np.mean(value)` of a list of numeric hyperparameter values
(line 181 of `PPG_models.py`), in exact arithmetic. -/
def meanQ (vs : List HValue) : ℚ :=
  (vs.map toQ).sum / (vs.length : ℚ)

/-- The distinct elements of a list in first-encounter order: the key set of
`collections.Counter(value)` (a `Counter` is an insertion-ordered dict). -/
def uniqueKeysAux (seen : List HValue) : List HValue → List HValue
  | [] => []
  | v :: rest =>
      if seen.contains v then uniqueKeysAux seen rest
      else v :: uniqueKeysAux (v :: seen) rest

/-- Key set of `Counter(value)` in first-encounter order. -/
def uniqueKeys (vs : List HValue) : List HValue :=
  uniqueKeysAux [] vs

/-- One step of selecting the most common element: keep the current best,
replace it only when a strictly larger count appears.  This realises the
tie-breaking of `Counter.most_common(1)`: on equal counts the
first-encountered key wins. -/
def pickMax (vs : List HValue) (acc : Option HValue) (k : HValue) : Option HValue :=
  match acc with
  | none => some k
  | some b => if vs.count b < vs.count k then some k else some b

/-- The expression `Counter(value).most_common(1)[0][0]` (lines 184-185 of `PPG_models.py`):
the most frequent element, ties broken by first encounter; `none` models the
`IndexError` on an empty list (never reached by the script). -/
def modeList (vs : List HValue) : Option HValue :=
  (uniqueKeys vs).foldl (pickMax vs) none

/-- Aggregation of the per-fold values of one hyperparameter
(lines 178-186 of `PPG_models.py`):
`if all(isinstance(x, (float, int)) ...): final[key] = np.mean(value)`
followed by
`if all(isinstance(x, (int, str)) ...): final[key] = mode`.
The second `if` is NOT an `elif`: when both guards hold the mode
unconditionally overwrites the mean.  A key matching neither guard is
never inserted (`none`). -/
def aggregateEntry (vs : List HValue) : Option HValue :=
  let afterMean : Option HValue :=
    if vs.all isNumericV then some (HValue.VFloat (meanQ vs)) else none
  if vs.all isIntOrStrV then modeList vs else afterMean

/-- The whole aggregation loop over `best_hypers.items()`
(lines 177-186 of `PPG_models.py`): keys are processed in insertion
order and a key is dropped when `aggregateEntry` yields nothing. -/
def aggregateLog (log : List (String × List HValue)) : List (String × HValue) :=
  log.filterMap (fun e => (aggregateEntry e.2).map (fun v => (e.1, v)))

lemma uniqueKeysAux_subset :
    ∀ (l seen : List HValue) (v : HValue), v ∈ uniqueKeysAux seen l → v ∈ l := by
  intro l
  induction l with
  | nil => intro seen v h; simp [uniqueKeysAux] at h
  | cons x rest ih =>
    intro seen v h
    simp only [uniqueKeysAux] at h
    by_cases hc : seen.contains x = true
    · rw [if_pos hc] at h
      exact List.mem_cons_of_mem _ (ih seen v h)
    · rw [if_neg hc] at h
      rcases List.mem_cons.mp h with h1 | h2
      · exact h1 ▸ List.mem_cons_self _ _
      · exact List.mem_cons_of_mem _ (ih _ v h2)

lemma uniqueKeysAux_complete :
    ∀ (l seen : List HValue) (v : HValue), v ∈ l → v ∈ seen ∨ v ∈ uniqueKeysAux seen l := by
  intro l
  induction l with
  | nil => intro seen v h; simp at h
  | cons x rest ih =>
    intro seen v hv
    by_cases hc : seen.contains x = true
    · simp only [uniqueKeysAux, if_pos hc]
      rcases List.mem_cons.mp hv with rfl | hv'
      · exact Or.inl (by simpa using hc)
      · exact ih seen v hv'
    · simp only [uniqueKeysAux, if_neg hc]
      rcases List.mem_cons.mp hv with rfl | hv'
      · exact Or.inr (List.mem_cons_self _ _)
      · rcases ih (x :: seen) v hv' with h1 | h2
        · rcases List.mem_cons.mp h1 with rfl | h3
          · exact Or.inr (List.mem_cons_self _ _)
          · exact Or.inl h3
        · exact Or.inr (List.mem_cons_of_mem _ h2)

lemma foldl_pickMax_some (vs : List HValue) :
    ∀ (l : List HValue) (b : HValue), ∃ m, List.foldl (pickMax vs) (some b) l = some m := by
  intro l
  induction l with
  | nil => exact fun b => ⟨b, rfl⟩
  | cons k rest ih =>
    intro b
    by_cases hlt : vs.count b < vs.count k
    · simpa [pickMax, if_pos hlt] using ih k
    · simpa [pickMax, if_neg hlt] using ih b

lemma foldl_pickMax_spec (vs : List HValue) :
    ∀ (l : List HValue) (acc : Option HValue) (m : HValue),
      List.foldl (pickMax vs) acc l = some m →
      (m ∈ l ∨ acc = some m) ∧ (∀ k ∈ l, vs.count k ≤ vs.count m) ∧
        (∀ b, acc = some b → vs.count b ≤ vs.count m) := by
  intro l
  induction l with
  | nil =>
    intro acc m h
    simp only [List.foldl_nil] at h
    refine ⟨Or.inr h, by simp, fun b hb => ?_⟩
    rw [h] at hb
    cases hb
    exact le_refl _
  | cons k rest ih =>
    intro acc m h
    simp only [List.foldl_cons] at h
    obtain ⟨hmem, hrest, hacc⟩ := ih (pickMax vs acc k) m h
    refine ⟨?_, ?_, ?_⟩
    · rcases hmem with h1 | h2
      · exact Or.inl (List.mem_cons_of_mem _ h1)
      · cases acc with
        | none =>
          simp only [pickMax, Option.some.injEq] at h2
          exact Or.inl (h2 ▸ List.mem_cons_self _ _)
        | some b =>
          by_cases hlt : vs.count b < vs.count k
          · rw [show pickMax vs (some b) k = some k by simp [pickMax, if_pos hlt]] at h2
            cases h2
            exact Or.inl (List.mem_cons_self _ _)
          · rw [show pickMax vs (some b) k = some b by simp [pickMax, if_neg hlt]] at h2
            exact Or.inr h2
    · intro j hj
      rcases List.mem_cons.mp hj with rfl | hj'
      · cases acc with
        | none => exact hacc j (by simp [pickMax])
        | some b =>
          by_cases hlt : vs.count b < vs.count j
          · exact hacc j (by simp [pickMax, if_pos hlt])
          · exact le_trans (Nat.le_of_not_lt hlt) (hacc b (by simp [pickMax, if_neg hlt]))
      · exact hrest j hj'
    · intro b hb
      subst hb
      by_cases hlt : vs.count b < vs.count k
      · exact le_trans (le_of_lt hlt) (hacc k (by simp [pickMax, if_pos hlt]))
      · exact hacc b (by simp [pickMax, if_neg hlt])

/-- The executable `modeList` really is the mode: on any non-empty list it
returns an element of the list of maximal multiplicity. -/
lemma modeList_spec (vs : List HValue) (hne : vs ≠ []) :
    ∃ m, modeList vs = some m ∧ m ∈ vs ∧ ∀ v ∈ vs, vs.count v ≤ vs.count m := by
  obtain ⟨x, rest, rfl⟩ := List.exists_cons_of_ne_nil hne
  have hukeys : uniqueKeys (x :: rest) = x :: uniqueKeysAux [x] rest := by
    simp [uniqueKeys, uniqueKeysAux]
  have hmode : modeList (x :: rest)
      = List.foldl (pickMax (x :: rest)) (some x) (uniqueKeysAux [x] rest) := by
    simp [modeList, hukeys, pickMax]
  obtain ⟨m, hfold⟩ := foldl_pickMax_some (x :: rest) (uniqueKeysAux [x] rest) x
  obtain ⟨hmem, hrest, hacc⟩ := foldl_pickMax_spec (x :: rest) _ _ _ hfold
  refine ⟨m, by rw [hmode, hfold], ?_, ?_⟩
  · rcases hmem with h1 | h2
    · exact List.mem_cons_of_mem _ (uniqueKeysAux_subset _ _ _ h1)
    · cases h2
      exact List.mem_cons_self _ _
  · intro v hv
    rcases uniqueKeysAux_complete (x :: rest) [] v hv with h1 | h2
    · simp at h1
    · have h2' : v ∈ uniqueKeys (x :: rest) := h2
      rw [hukeys] at h2'
      rcases List.mem_cons.mp h2' with rfl | h3
      · exact hacc v rfl
      · exact hrest v h3

lemma all_int_intOrStr {vs : List HValue} (h : vs.all isIntV = true) :
    vs.all isIntOrStrV = true := by
  rw [List.all_eq_true] at h ⊢
  intro v hv
  have := h v hv
  cases v <;> simp [isIntV, isIntOrStrV] at this ⊢

/-- C1: for a hyperparameter whose per-fold values are all integers, both
guards of the aggregation loop hold, so the numeric-mean rule fires first
and the discrete-mode rule then unconditionally overwrites it: the final
aggregated value is the statistical mode of the per-fold values (an integer
element of the list of maximal multiplicity), never the float mean. -/
theorem aggregate_all_int_is_mode (vs : List HValue) (hne : vs ≠ [])
    (hint : vs.all isIntV = true) :
    aggregateEntry vs = modeList vs ∧
    ∃ m, modeList vs = some m ∧ aggregateEntry vs = some m ∧ m ∈ vs ∧
      (∀ v ∈ vs, vs.count v ≤ vs.count m) ∧ ∀ q : ℚ, m ≠ HValue.VFloat q := by
  have hios := all_int_intOrStr hint
  have hagg : aggregateEntry vs = modeList vs := by simp [aggregateEntry, hios]
  obtain ⟨m, hm, hmem, hcnt⟩ := modeList_spec vs hne
  refine ⟨hagg, m, hm, by rw [hagg, hm], hmem, hcnt, ?_⟩
  intro q
  have hint_m := (List.all_eq_true.mp hint) m hmem
  cases m <;> simp [isIntV] at hint_m ⊢

theorem aggregate_all_int_is_mode_witness :
    ([HValue.VInt 2, HValue.VInt 3, HValue.VInt 2] ≠ ([] : List HValue)) ∧
    ([HValue.VInt 2, HValue.VInt 3, HValue.VInt 2].all isIntV = true) ∧
    (aggregateEntry [HValue.VInt 2, HValue.VInt 3, HValue.VInt 2]
        = modeList [HValue.VInt 2, HValue.VInt 3, HValue.VInt 2] ∧
      ∃ m, modeList [HValue.VInt 2, HValue.VInt 3, HValue.VInt 2] = some m ∧
        aggregateEntry [HValue.VInt 2, HValue.VInt 3, HValue.VInt 2] = some m ∧
        m ∈ [HValue.VInt 2, HValue.VInt 3, HValue.VInt 2] ∧
        (∀ v ∈ [HValue.VInt 2, HValue.VInt 3, HValue.VInt 2],
          [HValue.VInt 2, HValue.VInt 3, HValue.VInt 2].count v
            ≤ [HValue.VInt 2, HValue.VInt 3, HValue.VInt 2].count m) ∧
        ∀ q : ℚ, m ≠ HValue.VFloat q) :=
  ⟨by decide, by decide, aggregate_all_int_is_mode _ (by decide) (by decide)⟩

/-- C2 counterexample: the per-fold value list `[1, 1, 2]` is all-numeric,
yet the aggregated value is the mode `1`, not the arithmetic mean `4/3`:
the numeric-mean clause of the claim fails on an all-integer list. -/
theorem aggregate_numeric_mean_counterexample :
    ([HValue.VInt 1, HValue.VInt 1, HValue.VInt 2].all isNumericV = true) ∧
    aggregateEntry [HValue.VInt 1, HValue.VInt 1, HValue.VInt 2]
      = some (HValue.VInt 1) ∧
    meanQ [HValue.VInt 1, HValue.VInt 1, HValue.VInt 2] = 4 / 3 ∧
    ∀ q : ℚ, HValue.VInt 1 ≠ HValue.VFloat q := by
  refine ⟨by decide, by decide, ?_, by intro q; simp⟩
  norm_num [meanQ, toQ]

/-- C2 (amended): the numeric-mean rule governs exactly the parameters whose
values are all numeric with at least one float; the discrete-mode rule
governs all-int-or-string parameters (ties by first encounter).  The two
concrete examples of the spec hold: mean of `[0.1, 0.3, 0.2]` is `0.2`, and
mode of `["rbf","rbf","linear"]` is `"rbf"`. -/
theorem aggregate_rules_amended :
    (aggregateLog [("C", [HValue.VFloat (1/10), HValue.VFloat (3/10), HValue.VFloat (2/10)])]
        = [("C", HValue.VFloat (2/10))]) ∧
    (aggregateLog [("kernel", [HValue.VStr "rbf", HValue.VStr "rbf", HValue.VStr "linear"])]
        = [("kernel", HValue.VStr "rbf")]) ∧
    (∀ vs : List HValue, vs.all isNumericV = true → vs.any isFloatV = true →
      aggregateEntry vs = some (HValue.VFloat (meanQ vs))) ∧
    (∀ vs : List HValue, vs ≠ [] → vs.all isIntOrStrV = true →
      ∃ m, aggregateEntry vs = some m ∧ modeList vs = some m ∧ m ∈ vs ∧
        ∀ v ∈ vs, vs.count v ≤ vs.count m) ∧
    aggregateEntry [HValue.VStr "a", HValue.VStr "b"] = some (HValue.VStr "a") := by
  refine ⟨?_, by decide, ?_, ?_, by decide⟩
  · norm_num [aggregateLog, aggregateEntry, meanQ, toQ, isNumericV, isIntOrStrV,
      List.filterMap, List.all]
  · intro vs h1 h2
    obtain ⟨v, hv, hfv⟩ := List.any_eq_true.mp h2
    have hne : vs.all isIntOrStrV = false := by
      refine Bool.eq_false_iff.mpr fun hall => ?_
      have := List.all_eq_true.mp hall v hv
      cases v <;> simp [isFloatV, isIntOrStrV] at hfv this
    simp [aggregateEntry, hne, h1]
  · intro vs hne hall
    obtain ⟨m, hm, hmem, hcnt⟩ := modeList_spec vs hne
    exact ⟨m, by simp [aggregateEntry, hall, hm], hm, hmem, hcnt⟩

theorem aggregate_rules_amended_witness :
    ([HValue.VFloat (1/2), HValue.VInt 1].all isNumericV = true) ∧
    ([HValue.VFloat (1/2), HValue.VInt 1].any isFloatV = true) ∧
    aggregateEntry [HValue.VFloat (1/2), HValue.VInt 1]
      = some (HValue.VFloat (meanQ [HValue.VFloat (1/2), HValue.VInt 1])) :=
  ⟨by decide, by decide, aggregate_rules_amended.2.2.1 _ (by decide) (by decide)⟩

/-- C9: a per-fold value list satisfying neither aggregation guard (not all
numeric, not all int-or-string) raises no error; its key is silently
omitted: the aggregated configuration of any log containing such an entry
is the aggregation of the remaining entries. -/
theorem aggregate_mixed_type_omitted (vs : List HValue)
    (h1 : vs.all isNumericV = false) (h2 : vs.all isIntOrStrV = false) :
    aggregateEntry vs = none ∧
    ∀ (log1 log2 : List (String × List HValue)) (k : String),
      aggregateLog (log1 ++ (k, vs) :: log2) = aggregateLog log1 ++ aggregateLog log2 := by
  have hagg : aggregateEntry vs = none := by simp [aggregateEntry, h1, h2]
  refine ⟨hagg, fun log1 log2 k => ?_⟩
  simp [aggregateLog, List.filterMap_append, List.filterMap_cons, hagg]

theorem aggregate_mixed_type_omitted_witness :
    ([HValue.VFloat (1/2), HValue.VStr "x"].all isNumericV = false) ∧
    ([HValue.VFloat (1/2), HValue.VStr "x"].all isIntOrStrV = false) ∧
    (aggregateEntry [HValue.VFloat (1/2), HValue.VStr "x"] = none ∧
      ∀ (log1 log2 : List (String × List HValue)) (k : String),
        aggregateLog (log1 ++ (k, [HValue.VFloat (1/2), HValue.VStr "x"]) :: log2)
          = aggregateLog log1 ++ aggregateLog log2) :=
  ⟨by decide, by decide, aggregate_mixed_type_omitted _ (by decide) (by decide)⟩

/-- Fuel-based unfolding of the `while start < stop` loop of
`Processing.frange` (lines 55-62 of `PPG_models.py`).  The fuel chosen in
`frange` below is always enough when the step is positive
(`le_frangeFuel`), so the fuel never cuts the loop short. -/
def frangeAux (stop step : ℚ) : Nat → ℚ → List ℚ
  | 0, _ => []
  | n + 1, start =>
      if start < stop then start :: frangeAux stop step n (start + step) else []

/-- Upper bound on the number of iterations of the `frange` loop. -/
def frangeFuel (start stop step : ℚ) : Nat :=
  (⌈(stop - start) / step⌉).toNat

/-- The generator `Processing.frange(start, stop, step)` in exact rational arithmetic:
yield `start` and keep adding `step` while strictly below `stop`. -/
def frange (start stop step : ℚ) : List ℚ :=
  frangeAux stop step (frangeFuel start stop step) start

lemma frangeAux_succ (stop step : ℚ) (n : Nat) (start : ℚ) (h : start < stop) :
    frangeAux stop step (n + 1) start = start :: frangeAux stop step n (start + step) := by
  simp [frangeAux, h]

lemma frangeAux_mem (stop step : ℚ) (hs : 0 < step) :
    ∀ (n : Nat) (start x : ℚ), (stop - start) / step ≤ (n : ℚ) →
      (x ∈ frangeAux stop step n start ↔
        ∃ k : ℕ, x = start + (k : ℚ) * step ∧ x < stop) := by
  intro n
  induction n with
  | zero =>
    intro start x hn
    simp only [frangeAux, List.not_mem_nil, false_iff]
    rintro ⟨k, rfl, hlt⟩
    have hle : stop - start ≤ 0 := by
      by_contra hpos
      push_neg at hpos
      have hdiv : 0 < (stop - start) / step := div_pos hpos hs
      push_cast at hn
      linarith
    have hks : (0 : ℚ) ≤ (k : ℚ) * step := mul_nonneg (Nat.cast_nonneg k) hs.le
    linarith
  | succ n ih =>
    intro start x hn
    by_cases hlt : start < stop
    · rw [frangeAux_succ stop step n start hlt]
      have hstep : step ≠ 0 := ne_of_gt hs
      have hdiv : (stop - (start + step)) / step = (stop - start) / step - 1 := by
        field_simp
        ring
      have hn' : (stop - (start + step)) / step ≤ (n : ℚ) := by
        rw [hdiv]
        push_cast at hn ⊢
        linarith
      rw [List.mem_cons, ih (start + step) x hn']
      constructor
      · rintro (rfl | ⟨k, rfl, hk⟩)
        · exact ⟨0, by push_cast; ring, hlt⟩
        · exact ⟨k + 1, by push_cast; ring, hk⟩
      · rintro ⟨k, rfl, hk⟩
        cases k with
        | zero => left; push_cast; ring
        | succ j => right; exact ⟨j, by push_cast; ring, hk⟩
    · have hnil : frangeAux stop step (n + 1) start = [] := by
        simp [frangeAux, hlt]
      rw [hnil]
      simp only [List.not_mem_nil, false_iff]
      rintro ⟨k, rfl, hk⟩
      push_neg at hlt
      have hks : (0 : ℚ) ≤ (k : ℚ) * step := mul_nonneg (Nat.cast_nonneg k) hs.le
      linarith

lemma le_frangeFuel (start stop step : ℚ) :
    (stop - start) / step ≤ (frangeFuel start stop step : ℚ) := by
  unfold frangeFuel
  calc (stop - start) / step
      ≤ (⌈(stop - start) / step⌉ : ℚ) := Int.le_ceil _
    _ ≤ ((⌈(stop - start) / step⌉.toNat : ℤ) : ℚ) := by
        exact_mod_cast Int.self_le_toNat _
    _ = ((⌈(stop - start) / step⌉.toNat : ℕ) : ℚ) := by push_cast; ring

/-- For a positive step, `frange` yields exactly the arithmetic progression
values strictly below `stop`. -/
lemma frange_mem (start stop step x : ℚ) (hs : 0 < step) :
    x ∈ frange start stop step ↔
      ∃ k : ℕ, x = start + (k : ℚ) * step ∧ x < stop := by
  unfold frange
  exact frangeAux_mem stop step hs _ start x (le_frangeFuel start stop step)

lemma frangeFuel_grid : frangeFuel 0 1 (1/10) = 10 := by
  unfold frangeFuel
  norm_num
  rfl

lemma frange_grid_eval :
    frange 0 1 (1/10)
      = [0, 1/10, 2/10, 3/10, 4/10, 5/10, 6/10, 7/10, 8/10, 9/10] := by
  rw [frange, frangeFuel_grid]
  norm_num [frangeAux_succ, frangeAux]

/-- The SVM hyperparameter grid of `Training.hyperparameters`
(lines 224-230 of `PPG_models.py`), in exact arithmetic:
`C` from `frange(0, 1.0, 0.1)`, four kernel names, the fixed
`class_weight` entry `'balanced'`, `degree` from `range(1, 6, 1)` and
`gamma` from `frange(0.02, 0.05, 0.001)`. -/
def svmParamGrid : List (String × List HValue) :=
  [("C", (frange 0 1 (1/10)).map HValue.VFloat),
   ("kernel", [HValue.VStr "linear", HValue.VStr "poly", HValue.VStr "rbf",
     HValue.VStr "sigmoid"]),
   ("class_weight", [HValue.VStr "balanced"]),
   ("degree", (List.range 5).map (fun i => HValue.VInt ((i : Int) + 1))),
   ("gamma", (frange (2/100) (5/100) (1/1000)).map HValue.VFloat)]

/-- C6 counterexample: under exact arithmetic the `frange` loop stops
strictly below `stop`, so `1.0` is NOT produced by `frange(0, 1.0, 0.1)`
and is absent from the SVM regularisation-strength grid; the largest value
produced is `0.9`. -/
theorem frange_grid_excludes_one :
    (1 : ℚ) ∉ frange 0 1 (1/10) ∧
    HValue.VFloat 1 ∉ (List.lookup "C" svmParamGrid).getD [] ∧
    (9/10 : ℚ) ∈ frange 0 1 (1/10) := by
  refine ⟨?_, ?_, ?_⟩
  · rw [frange_grid_eval]; norm_num
  · have hl : List.lookup "C" svmParamGrid
        = some ((frange 0 1 (1/10)).map HValue.VFloat) := rfl
    rw [hl, Option.getD_some, frange_grid_eval]
    simp only [List.mem_map, not_exists, not_and, List.mem_cons, List.not_mem_nil]
    rintro q (rfl | rfl | rfl | rfl | rfl | rfl | rfl | rfl | rfl | rfl | h) <;>
      simp_all <;> norm_num
  · rw [frange_grid_eval]; norm_num

/-- C6 (amended): for every positive step, `frange` yields exactly the
values `start + k*step` (k = 0, 1, 2, ...) that are strictly less than
`stop`; consequently the SVM `C` grid built from `frange(0, 1.0, 0.1)` is
exactly `0.0, 0.1, ..., 0.9` — it stops at `0.9` and excludes `1.0`. -/
theorem frange_characterization_and_grid (start stop step x : ℚ) (hs : 0 < step) :
    (x ∈ frange start stop step ↔
      ∃ k : ℕ, x = start + (k : ℚ) * step ∧ x < stop) ∧
    frange 0 1 (1/10) = [0, 1/10, 2/10, 3/10, 4/10, 5/10, 6/10, 7/10, 8/10, 9/10] ∧
    List.lookup "C" svmParamGrid = some ((frange 0 1 (1/10)).map HValue.VFloat) :=
  ⟨frange_mem start stop step x hs, frange_grid_eval, rfl⟩

theorem frange_characterization_and_grid_witness :
    (0 : ℚ) < 1 ∧
    (((1 : ℚ) ∈ frange 0 2 1 ↔
        ∃ k : ℕ, (1 : ℚ) = 0 + (k : ℚ) * 1 ∧ (1 : ℚ) < 2) ∧
      frange 0 1 (1/10) = [0, 1/10, 2/10, 3/10, 4/10, 5/10, 6/10, 7/10, 8/10, 9/10] ∧
      List.lookup "C" svmParamGrid = some ((frange 0 1 (1/10)).map HValue.VFloat)) :=
  ⟨by norm_num, frange_characterization_and_grid 0 2 1 1 (by norm_num)⟩

/-- A 2x2 confusion matrix as produced by
`sklearn.metrics.confusion_matrix`; `cij` is the cell `cm[i, j]`. -/
structure CMat where
  c00 : Nat
  c01 : Nat
  c10 : Nat
  c11 : Nat

/-- The statistics dictionary printed by `Analysis.confusion`. -/
structure ConfusionStats where
  model_accuracy : ℚ
  model_error : ℚ
  precisionStat : ℚ
  recallStat : ℚ
  true_positive_rate : ℚ
  false_positive_rate : ℚ
  specificity : ℚ
deriving DecidableEq

/-- The function `Analysis.confusion` (lines 78-100 of `PPG_models.py`): reads
`TP = cm[0,0]`, `TN = cm[1,1]`, `FP = cm[0,1]`, `FN = cm[1,0]` and forms
the statistics dictionary. -/
def confusion (cm : CMat) : ConfusionStats :=
  let TP : ℚ := cm.c00
  let TN : ℚ := cm.c11
  let FP : ℚ := cm.c01
  let FN : ℚ := cm.c10
  { model_accuracy := (TP + TN) / (TP + TN + FP + FN)
    model_error := (FP + FN) / (TP + TN + FP + FN)
    precisionStat := TP / (TP + FP)
    recallStat := TP / (TP + FN)
    true_positive_rate := TP / (TP + FN)
    false_positive_rate := FP / (FP + TN)
    specificity := TN / (TN + FP) }

/-- The claimed formulas, written directly in terms of the four counts
TP, TN, FP, FN (the spec side of the refinement). -/
def specConfusionStats (TP TN FP FN : Nat) : ConfusionStats :=
  { model_accuracy := ((TP : ℚ) + TN) / ((TP : ℚ) + TN + FP + FN)
    model_error := ((FP : ℚ) + FN) / ((TP : ℚ) + TN + FP + FN)
    precisionStat := (TP : ℚ) / ((TP : ℚ) + FP)
    recallStat := (TP : ℚ) / ((TP : ℚ) + FN)
    true_positive_rate := (TP : ℚ) / ((TP : ℚ) + FN)
    false_positive_rate := (FP : ℚ) / ((FP : ℚ) + TN)
    specificity := (TN : ℚ) / ((TN : ℚ) + FP) }

/-- C5: `Analysis.confusion` reads TP from cell [0,0], TN from [1,1],
FP from [0,1], FN from [1,0], and computes exactly the claimed formulas;
for TP=50, TN=30, FP=10, FN=10 it yields accuracy 0.8, error 0.2,
precision 50/60, recall 50/60, false-positive rate 1/4 and
specificity 30/40 = 0.75. -/
theorem confusion_stats_correct :
    (∀ cm : CMat, confusion cm = specConfusionStats cm.c00 cm.c11 cm.c01 cm.c10) ∧
    confusion ⟨50, 10, 10, 30⟩ =
      { model_accuracy := 4/5
        model_error := 1/5
        precisionStat := 5/6
        recallStat := 5/6
        true_positive_rate := 5/6
        false_positive_rate := 1/4
        specificity := 3/4 } := by
  refine ⟨fun cm => rfl, ?_⟩
  show specConfusionStats 50 30 10 10 = _
  unfold specConfusionStats
  norm_num

/-- One row of the CSV read by `Processing.extract_data`: the `Filename`
column, the binary `State` label and the remaining feature columns
(`none` models a missing value). -/
structure CsvRow where
  filename : String
  state : Nat
  features : List (Option ℚ)

/-- The four values returned by `Processing.extract_data`
(lines 32-53 of `PPG_models.py`). -/
structure ExtractedData where
  X : List (List (Option ℚ))
  y : List Nat
  sessions : List String
  class_weighting : List ℚ

/-- The function `Processing.extract_data`: splits the frame into features, labels and
session names, and computes
`class_weighting = [1, y.value_counts()[0] / y.value_counts()[1]]`
(line 51 of `PPG_models.py`); `value_counts()[c]` is the number of rows
whose label equals `c`. -/
def extract_data (df : List CsvRow) : ExtractedData :=
  let y := df.map (fun r => r.state)
  { X := df.map (fun r => r.features)
    y := y
    sessions := df.map (fun r => r.filename)
    class_weighting := [1, ((y.count 0 : ℚ) / (y.count 1 : ℚ))] }

/-- C7: whenever both classes occur, the class-weighting pair is
`(w0, w1)` with `w0 = 1` and `w1 = count(class 0) / count(class 1)`
(equivalently `w1 * count(class 1) = count(class 0)`, the division being
by a nonzero count). -/
theorem class_weighting_formula (df : List CsvRow)
    (h0 : 0 ∈ (extract_data df).y) (h1 : 1 ∈ (extract_data df).y) :
    ∃ w1 : ℚ,
      (extract_data df).class_weighting = [1, w1] ∧
      w1 = (((extract_data df).y.filter (fun v => v == 0)).length : ℚ)
            / (((extract_data df).y.filter (fun v => v == 1)).length : ℚ) ∧
      w1 * (((extract_data df).y.filter (fun v => v == 1)).length : ℚ)
        = (((extract_data df).y.filter (fun v => v == 0)).length : ℚ) := by
  set y := (extract_data df).y with hy
  have hc0 : y.count 0 = (y.filter (fun v => v == 0)).length := by
    rw [List.count, List.countP_eq_length_filter]
  have hc1 : y.count 1 = (y.filter (fun v => v == 1)).length := by
    rw [List.count, List.countP_eq_length_filter]
  have hpos : 0 < y.count 1 := List.count_pos_iff.mpr h1
  have hne : ((y.filter (fun v => v == 1)).length : ℚ) ≠ 0 := by
    rw [← hc1]
    exact_mod_cast Nat.pos_iff_ne_zero.mp hpos
  refine ⟨(y.count 0 : ℚ) / (y.count 1 : ℚ), rfl, by rw [hc0, hc1], ?_⟩
  rw [hc0, hc1]
  exact div_mul_cancel₀ _ hne

theorem class_weighting_formula_witness :
    (0 ∈ (extract_data [⟨"a", 0, []⟩, ⟨"b", 1, []⟩, ⟨"c", 0, []⟩]).y) ∧
    (1 ∈ (extract_data [⟨"a", 0, []⟩, ⟨"b", 1, []⟩, ⟨"c", 0, []⟩]).y) ∧
    (∃ w1 : ℚ,
      (extract_data [⟨"a", 0, []⟩, ⟨"b", 1, []⟩, ⟨"c", 0, []⟩]).class_weighting = [1, w1] ∧
      w1 = (((extract_data [⟨"a", 0, []⟩, ⟨"b", 1, []⟩, ⟨"c", 0, []⟩]).y.filter
              (fun v => v == 0)).length : ℚ)
            / (((extract_data [⟨"a", 0, []⟩, ⟨"b", 1, []⟩, ⟨"c", 0, []⟩]).y.filter
              (fun v => v == 1)).length : ℚ) ∧
      w1 * (((extract_data [⟨"a", 0, []⟩, ⟨"b", 1, []⟩, ⟨"c", 0, []⟩]).y.filter
              (fun v => v == 1)).length : ℚ)
        = (((extract_data [⟨"a", 0, []⟩, ⟨"b", 1, []⟩, ⟨"c", 0, []⟩]).y.filter
              (fun v => v == 0)).length : ℚ)) :=
  ⟨by decide, by decide,
    class_weighting_formula [⟨"a", 0, []⟩, ⟨"b", 1, []⟩, ⟨"c", 0, []⟩] (by decide) (by decide)⟩

/-- Number of feature columns of a raw (possibly missing-valued) matrix. -/
def numCols (X : List (List (Option ℚ))) : Nat :=
  (X.headD []).length

/-- Fitting `SimpleImputer(strategy='constant', fill_value=0)` on `X_train`
(line 150-151 of `PPG_models.py`): with the constant strategy the fitted
statistics are the fill value `0` for every training column, independent of
the data values. -/
def imputerFit (Xtrain : List (List (Option ℚ))) : List ℚ :=
  List.replicate (numCols Xtrain) 0

/-- Applying `imputer.transform(X)`: replace each missing entry by the fitted
per-column statistic. -/
def imputerTransform (stats : List ℚ) (X : List (List (Option ℚ))) : List (List ℚ) :=
  X.map (fun row => (row.zip stats).map (fun p => p.1.getD p.2))

/-- Per-column slice of an imputed matrix. -/
def column (X : List (List ℚ)) (j : Nat) : List ℚ :=
  X.map (fun r => (r.get? j).getD 0)

/-- Arithmetic mean of a column. -/
def meanOfList (l : List ℚ) : ℚ :=
  l.sum / (l.length : ℚ)

/-- Population variance of a column (`StandardScaler` uses `ddof = 0`). -/
def varOfList (l : List ℚ) : ℚ :=
  (l.map (fun x => (x - meanOfList l) ^ 2)).sum / (l.length : ℚ)

/-- The parameters learned by `StandardScaler.fit`. -/
structure ScalerParams where
  means : List ℚ
  scales : List ℚ
deriving DecidableEq

/-- Fitting `StandardScaler()` on `X_train` (lines 154-155 of `PPG_models.py`):
per-column mean and standard deviation of the training matrix.  The square
root of floating arithmetic is abstracted by the parameter `sqrtFn`; a zero
scale is replaced by 1, as `sklearn` does for constant columns. -/
def scalerFit (sqrtFn : ℚ → ℚ) (X : List (List ℚ)) : ScalerParams :=
  let cols := List.range ((X.headD []).length)
  { means := cols.map (fun j => meanOfList (column X j))
    scales := cols.map (fun j =>
      let s := sqrtFn (varOfList (column X j))
      if s = 0 then 1 else s) }

/-- Applying `scaler.transform(X)`: standardise each entry with the fitted
per-column mean and scale. -/
def scalerTransform (p : ScalerParams) (X : List (List ℚ)) : List (List ℚ) :=
  X.map (fun row =>
    (row.zip (p.means.zip p.scales)).map (fun q => (q.1 - q.2.1) / q.2.2))

/-- Result of the preprocessing stage of `nested_cross_validation`
(lines 149-156 of `PPG_models.py`). -/
structure PreOut where
  Xtr : List (List ℚ)
  Xte : List (List ℚ)
  imputerStats : List ℚ
  scaler : ScalerParams
deriving DecidableEq

/-- Lines 149-156 of `PPG_models.py`: fit the constant imputer on
`X_train`, transform both partitions with it, fit the standard scaler on
the imputed `X_train`, transform both partitions with it. -/
def preprocess (sqrtFn : ℚ → ℚ) (Xtrain Xtest : List (List (Option ℚ))) : PreOut :=
  let stats := imputerFit Xtrain
  let Xtr1 := imputerTransform stats Xtrain
  let Xte1 := imputerTransform stats Xtest
  let sp := scalerFit sqrtFn Xtr1
  { Xtr := scalerTransform sp Xtr1
    Xte := scalerTransform sp Xte1
    imputerStats := stats
    scaler := sp }

/-- C4: the imputer and scaler are fit on the Train partition only.  For
any two runs with the same Train partition and arbitrary (different) Test
partitions, the fitted imputation statistics, the fitted scaling
parameters and the transformed Train data are identical; the imputer
statistics are the constant fill value 0 for every column; and Test is
transformed with exactly the Train-fitted parameters. -/
theorem preprocess_fit_on_train_only (sqrtFn : ℚ → ℚ)
    (Xtrain Xtest1 Xtest2 : List (List (Option ℚ))) :
    (preprocess sqrtFn Xtrain Xtest1).imputerStats
        = (preprocess sqrtFn Xtrain Xtest2).imputerStats ∧
    (preprocess sqrtFn Xtrain Xtest1).scaler
        = (preprocess sqrtFn Xtrain Xtest2).scaler ∧
    (preprocess sqrtFn Xtrain Xtest1).Xtr
        = (preprocess sqrtFn Xtrain Xtest2).Xtr ∧
    (preprocess sqrtFn Xtrain Xtest1).imputerStats
        = List.replicate (numCols Xtrain) 0 ∧
    (preprocess sqrtFn Xtrain Xtest1).Xte
        = scalerTransform
            (scalerFit sqrtFn (imputerTransform (imputerFit Xtrain) Xtrain))
            (imputerTransform (imputerFit Xtrain) Xtest1) :=
  ⟨rfl, rfl, rfl, rfl, rfl⟩

/-- The score `sklearn.metrics.accuracy_score(y_test, y_pred)`: the fraction of
positions where the two label sequences agree. -/
def accuracy_score (ytest ypred : List Nat) : ℚ :=
  (((ytest.zip ypred).countP (fun p => p.1 == p.2)) : ℚ) / (ytest.length : ℚ)

/-- The function `Training.run_model` (lines 325-354 of `PPG_models.py`): fit the model
on Train, predict on Test, export the session names at the positions where
the true and predicted labels differ
(`missed = sessions_test[(y_test != y_pred)]`), and return the accuracy
score.  The fitted model is abstracted by `modelFitPredict`, the external
`sklearn` fit/predict pair. -/
def run_model (modelFitPredict : List (List ℚ) → List Nat → List ℚ → Nat)
    (Xtrain : List (List ℚ)) (ytrain : List Nat)
    (Xtest : List (List ℚ)) (ytest : List Nat)
    (sessions_test : List String) : List String × ℚ :=
  let y_pred := Xtest.map (modelFitPredict Xtrain ytrain)
  let missed :=
    ((sessions_test.zip (ytest.zip y_pred)).filter (fun p => p.2.1 != p.2.2)).map
      Prod.fst
  (missed, accuracy_score ytest y_pred)

lemma accuracy_score_nonneg (ytest ypred : List Nat) :
    0 ≤ accuracy_score ytest ypred := by
  unfold accuracy_score
  positivity

lemma accuracy_score_le_one (ytest ypred : List Nat) :
    accuracy_score ytest ypred ≤ 1 := by
  unfold accuracy_score
  apply div_le_one_of_le
  · have h1 : (ytest.zip ypred).countP (fun p => p.1 == p.2)
        ≤ (ytest.zip ypred).length := List.countP_le_length _
    have h2 : (ytest.zip ypred).length ≤ ytest.length := by
      rw [List.length_zip]
      exact min_le_left _ _
    exact_mod_cast le_trans h1 h2
  · positivity

/-- C8: `run_model` exports exactly the session identifiers at the
positions where the true test label differs from the predicted label, and
returns `accuracy_score(y_test, y_pred)`, a value in [0, 1]. -/
theorem run_model_missed_and_accuracy
    (modelFitPredict : List (List ℚ) → List Nat → List ℚ → Nat)
    (Xtrain : List (List ℚ)) (ytrain : List Nat)
    (Xtest : List (List ℚ)) (ytest : List Nat)
    (sessions_test : List String) :
    (∀ s : String,
      s ∈ (run_model modelFitPredict Xtrain ytrain Xtest ytest sessions_test).1 ↔
        ∃ (i : ℕ) (t p : Nat),
          sessions_test.get? i = some s ∧ ytest.get? i = some t ∧
          (Xtest.map (modelFitPredict Xtrain ytrain)).get? i = some p ∧ t ≠ p) ∧
    (run_model modelFitPredict Xtrain ytrain Xtest ytest sessions_test).2
      = accuracy_score ytest (Xtest.map (modelFitPredict Xtrain ytrain)) ∧
    0 ≤ (run_model modelFitPredict Xtrain ytrain Xtest ytest sessions_test).2 ∧
    (run_model modelFitPredict Xtrain ytrain Xtest ytest sessions_test).2 ≤ 1 := by
  refine ⟨?_, rfl, accuracy_score_nonneg _ _, accuracy_score_le_one _ _⟩
  intro s
  show s ∈ ((sessions_test.zip
      (ytest.zip (Xtest.map (modelFitPredict Xtrain ytrain)))).filter
        (fun p => p.2.1 != p.2.2)).map Prod.fst ↔ _
  constructor
  · intro hs
    obtain ⟨x, hx, hfst⟩ := List.mem_map.mp hs
    obtain ⟨hmem, hne⟩ := List.mem_filter.mp hx
    obtain ⟨i, hi⟩ := List.mem_iff_get?.mp hmem
    obtain ⟨h1, h2⟩ := (List.get?_zip_eq_some _ _ _ _).mp hi
    obtain ⟨h3, h4⟩ := (List.get?_zip_eq_some _ _ _ _).mp h2
    refine ⟨i, x.2.1, x.2.2, by rw [← hfst]; exact h1, h3, h4, ?_⟩
    simpa using hne
  · rintro ⟨i, t, p, hs, ht, hp, hne⟩
    refine List.mem_map.mpr ⟨(s, t, p), List.mem_filter.mpr ⟨?_, ?_⟩, rfl⟩
    · refine List.mem_iff_get?.mpr ⟨i, ?_⟩
      rw [List.get?_zip_eq_some]
      exact ⟨hs, by rw [List.get?_zip_eq_some]; exact ⟨ht, hp⟩⟩
    · simpa using hne

/-- The `KFold` fold sizes on `n` samples with `k` splits: `n // k` per fold,
the first `n % k` folds one element larger (as in
`sklearn.model_selection.KFold._iter_test_indices`). -/
def foldSizes (n k : Nat) : List Nat :=
  (List.range k).map (fun i => n / k + if i < n % k then 1 else 0)

/-- Cut a list into consecutive chunks of the given sizes. -/
def takeChunks : List Nat → List Nat → List (List Nat)
  | [], _ => []
  | s :: ss, l => l.take s :: takeChunks ss (l.drop s)

/-- The splits of `KFold(n_splits=k, shuffle=True, random_state=42)` on `n`
samples.  `perm` is the shuffled copy of `np.arange(n)` drawn from the
seeded RNG (abstracted as a parameter); each fold's test set is one
consecutive chunk of `perm`, and the yielded `(train_index, test_index)`
pair lists the sample indices outside/inside that chunk in increasing
order, exactly as `BaseCrossValidator.split` materialises the boolean test
mask over `np.arange(n)`. -/
def kfoldSplits (k : Nat) (perm : List Nat) (n : Nat) : List (List Nat × List Nat) :=
  (takeChunks (foldSizes n k) perm).map
    (fun chunk =>
      ((List.range n).filter (fun i => !(chunk.contains i)),
       (List.range n).filter (fun i => chunk.contains i)))

/-- Positional indexing `X[ix]` of a list of rows by an index list. -/
def sliceIdx {α : Type} (X : List α) (ix : List Nat) : List α :=
  ix.filterMap (fun i => X.get? i)

lemma takeChunks_length : ∀ (ss l : List Nat), (takeChunks ss l).length = ss.length := by
  intro ss
  induction ss with
  | nil => intro l; rfl
  | cons s rest ih => intro l; simp [takeChunks, ih]

lemma kfoldSplits_length (k : Nat) (perm : List Nat) (n : Nat) :
    (kfoldSplits k perm n).length = k := by
  simp [kfoldSplits, takeChunks_length, foldSizes]

lemma mem_sliceIdx {α : Type} (X : List α) (ix : List Nat) (r : α)
    (h : r ∈ sliceIdx X ix) : r ∈ X := by
  obtain ⟨i, _, hg⟩ := List.mem_filterMap.mp h
  exact List.get?_mem hg

/-- One step of the log-building loop (lines 171-174 of `PPG_models.py`):
`if key not in best_hypers: best_hypers[key] = []` followed by
`best_hypers[key].append(value)`, on an insertion-ordered dict. -/
def logInsert (log : List (String × List HValue)) (kv : String × HValue) :
    List (String × List HValue) :=
  if log.any (fun e => e.1 == kv.1) then
    log.map (fun e => if e.1 == kv.1 then (e.1, e.2 ++ [kv.2]) else e)
  else log ++ [(kv.1, [kv.2])]

/-- The Per-Fold Configuration Log: every `(name, value)` pair of every
fold's best configuration, appended in fold order. -/
def buildLog (paramsList : List (List (String × HValue))) :
    List (String × List HValue) :=
  paramsList.foldl (fun log params => params.foldl logInsert log) []

/-- Observable outcome of `Training.nested_cross_validation` after the
initial train/test split, including the inputs passed to each invocation
of the inner hyperparameter search. -/
structure NCVResult where
  processedTrain : List (List ℚ)
  processedTest : List (List ℚ)
  searchCalls : List (List (List ℚ) × List Nat)
  best_hypers : List (String × List HValue)
  final_hypers : List (String × HValue)
  ypredTest : List Nat
  missedSessions : List String
  accuracy : ℚ
deriving DecidableEq

/-- The body of `Training.nested_cross_validation` (lines 149-209 of
`PPG_models.py`) after `train_test_split`: preprocess both partitions
(imputer and scaler fit on Train only), run the outer 10-fold loop calling
the inner search (`Training.hyperparameters`, abstracted by `search`) on
each fold's training slice, build the per-fold log, aggregate it, and
finally fit/score the model (abstracted by `fitPredict`) once on the
held-out Test partition via `run_model`. -/
def nested_cv_core (sqrtFn : ℚ → ℚ) (perm : List Nat)
    (search : List (List ℚ) → List Nat → List (String × HValue))
    (fitPredict : List (String × HValue) → List (List ℚ) → List Nat → List ℚ → Nat)
    (Xtrain0 Xtest0 : List (List (Option ℚ))) (ytrain ytest : List Nat)
    (sessions_test : List String) : NCVResult :=
  let pp := preprocess sqrtFn Xtrain0 Xtest0
  let splits := kfoldSplits 10 perm pp.Xtr.length
  let calls := splits.map (fun p => (sliceIdx pp.Xtr p.1, sliceIdx ytrain p.1))
  let bh := buildLog (calls.map (fun c => search c.1 c.2))
  let fh := aggregateLog bh
  let rm := run_model (fitPredict fh) pp.Xtr ytrain pp.Xte ytest sessions_test
  { processedTrain := pp.Xtr
    processedTest := pp.Xte
    searchCalls := calls
    best_hypers := bh
    final_hypers := fh
    ypredTest := pp.Xte.map (fitPredict fh pp.Xtr ytrain)
    missedSessions := rm.1
    accuracy := rm.2 }

lemma nested_cv_core_searchCalls (sqrtFn : ℚ → ℚ) (perm : List Nat)
    (search : List (List ℚ) → List Nat → List (String × HValue))
    (fitPredict : List (String × HValue) → List (List ℚ) → List Nat → List ℚ → Nat)
    (Xtrain0 Xtest0 : List (List (Option ℚ))) (ytrain ytest : List Nat)
    (sessions_test : List String) :
    (nested_cv_core sqrtFn perm search fitPredict Xtrain0 Xtest0 ytrain ytest
        sessions_test).searchCalls
      = (kfoldSplits 10 perm (preprocess sqrtFn Xtrain0 Xtest0).Xtr.length).map
          (fun p => (sliceIdx (preprocess sqrtFn Xtrain0 Xtest0).Xtr p.1,
            sliceIdx ytrain p.1)) := rfl

/-- C3: for every dataset reaching the outer loop (at least 10 Train rows,
as `KFold(n_splits=10)` requires), the inner hyperparameter search is
invoked exactly 10 times — once per fold of the 10-fold split of the Train
partition; every feature row and every label passed to the search comes
from the (preprocessed) Train partition; the search calls, the per-fold
log and the Final Configuration are invariant to the content of the Test
partition; and Test enters exactly once, after aggregation, in the final
accuracy score of the fitted model. -/
theorem nested_cv_outer_loop_invariant (sqrtFn : ℚ → ℚ) (perm : List Nat)
    (search : List (List ℚ) → List Nat → List (String × HValue))
    (fitPredict : List (String × HValue) → List (List ℚ) → List Nat → List ℚ → Nat)
    (Xtrain0 Xtest0 : List (List (Option ℚ))) (ytrain ytest : List Nat)
    (sessions_test : List String)
    (hn : 10 ≤ Xtrain0.length) :
    (nested_cv_core sqrtFn perm search fitPredict Xtrain0 Xtest0 ytrain ytest
        sessions_test).searchCalls.length = 10 ∧
    (∀ c ∈ (nested_cv_core sqrtFn perm search fitPredict Xtrain0 Xtest0 ytrain ytest
        sessions_test).searchCalls,
      (∀ row ∈ c.1, row ∈ (nested_cv_core sqrtFn perm search fitPredict Xtrain0 Xtest0
          ytrain ytest sessions_test).processedTrain) ∧
      (∀ lab ∈ c.2, lab ∈ ytrain)) ∧
    (∀ (Xtest1 : List (List (Option ℚ))) (ytest1 : List Nat)
        (sessions_test1 : List String),
      (nested_cv_core sqrtFn perm search fitPredict Xtrain0 Xtest1 ytrain ytest1
          sessions_test1).searchCalls
        = (nested_cv_core sqrtFn perm search fitPredict Xtrain0 Xtest0 ytrain ytest
            sessions_test).searchCalls ∧
      (nested_cv_core sqrtFn perm search fitPredict Xtrain0 Xtest1 ytrain ytest1
          sessions_test1).best_hypers
        = (nested_cv_core sqrtFn perm search fitPredict Xtrain0 Xtest0 ytrain ytest
            sessions_test).best_hypers ∧
      (nested_cv_core sqrtFn perm search fitPredict Xtrain0 Xtest1 ytrain ytest1
          sessions_test1).final_hypers
        = (nested_cv_core sqrtFn perm search fitPredict Xtrain0 Xtest0 ytrain ytest
            sessions_test).final_hypers) ∧
    (nested_cv_core sqrtFn perm search fitPredict Xtrain0 Xtest0 ytrain ytest
        sessions_test).accuracy
      = accuracy_score ytest
          (nested_cv_core sqrtFn perm search fitPredict Xtrain0 Xtest0 ytrain ytest
            sessions_test).ypredTest ∧
    (nested_cv_core sqrtFn perm search fitPredict Xtrain0 Xtest0 ytrain ytest
        sessions_test).ypredTest
      = (nested_cv_core sqrtFn perm search fitPredict Xtrain0 Xtest0 ytrain ytest
          sessions_test).processedTest.map
          (fitPredict
            (nested_cv_core sqrtFn perm search fitPredict Xtrain0 Xtest0 ytrain ytest
              sessions_test).final_hypers
            (nested_cv_core sqrtFn perm search fitPredict Xtrain0 Xtest0 ytrain ytest
              sessions_test).processedTrain ytrain) := by
  refine ⟨?_, ?_, fun Xtest1 ytest1 sessions_test1 => ⟨rfl, rfl, rfl⟩, rfl, rfl⟩
  · rw [nested_cv_core_searchCalls, List.length_map, kfoldSplits_length]
  · intro c hc
    rw [nested_cv_core_searchCalls] at hc
    obtain ⟨p, _, hp⟩ := List.mem_map.mp hc
    constructor
    · intro row hrow
      rw [← hp] at hrow
      exact mem_sliceIdx _ _ _ hrow
    · intro lab hlab
      rw [← hp] at hlab
      exact mem_sliceIdx _ _ _ hlab

theorem nested_cv_outer_loop_invariant_witness :
    10 ≤ (List.replicate 10 ([some (1:ℚ)] : List (Option ℚ))).length ∧
    (nested_cv_core (fun q => q) (List.range 10) (fun _ _ => []) (fun _ _ _ _ => 0)
        (List.replicate 10 ([some (1:ℚ)] : List (Option ℚ)))
        ([] : List (List (Option ℚ))) (List.range 10) [] []).searchCalls.length
      = 10 :=
  ⟨by simp,
    (nested_cv_outer_loop_invariant (fun q => q) (List.range 10)
      (fun _ _ => []) (fun _ _ _ _ => 0)
      (List.replicate 10 ([some (1:ℚ)] : List (Option ℚ)))
      ([] : List (List (Option ℚ))) (List.range 10) [] [] (by simp)).1⟩

/-- The six values returned by the `train_test_split` call of line 147 of
`PPG_models.py` (an external, seed-deterministic `sklearn` routine,
abstracted as a function parameter below). -/
structure SplitOut where
  X_train : List (List (Option ℚ))
  X_test : List (List (Option ℚ))
  y_train : List Nat
  y_test : List Nat
  sessions_train : List String
  sessions_test : List String

/-- The method `BaseModel.run` (lines 357-369 of `PPG_models.py`): the object state
holds the four values returned by `extract_data`
(`self.X, self.y, self.sessions, self.class_weighting`), and `run` invokes
`Training.nested_cross_validation(self.X, self.y, self.sessions,
self.model_type)` — the stored `class_weighting` is never passed on.
`splitTT` abstracts the seeded `train_test_split` of line 147 and `search`
abstracts `Training.hyperparameters` keyed by the family identifier. -/
def BaseModel_run
    (splitTT : List (List (Option ℚ)) → List Nat → List String → SplitOut)
    (sqrtFn : ℚ → ℚ) (perm : List Nat)
    (search : String → List (List ℚ) → List Nat → List (String × HValue))
    (fitPredict : List (String × HValue) → List (List ℚ) → List Nat → List ℚ → Nat)
    (st : ExtractedData) (model_type : String) : NCVResult :=
  let s := splitTT st.X st.y st.sessions
  nested_cv_core sqrtFn perm (search model_type) fitPredict
    s.X_train s.X_test s.y_train s.y_test s.sessions_test

/-- C10: the class-weighting pair computed by `extract_data` is never
consumed: two states agreeing on features, labels and sessions but with
arbitrary (different) class weightings produce identical results — the
per-fold log, the Final Configuration, the predictions, the misclassified
sessions and the accuracy all coincide.  The only class balancing in the
pipeline is the fixed `'balanced'` entry of the SVM grid. -/
theorem class_weighting_unused
    (splitTT : List (List (Option ℚ)) → List Nat → List String → SplitOut)
    (sqrtFn : ℚ → ℚ) (perm : List Nat)
    (search : String → List (List ℚ) → List Nat → List (String × HValue))
    (fitPredict : List (String × HValue) → List (List ℚ) → List Nat → List ℚ → Nat)
    (d1 d2 : ExtractedData) (model_type : String)
    (hX : d1.X = d2.X) (hy : d1.y = d2.y) (hs : d1.sessions = d2.sessions) :
    BaseModel_run splitTT sqrtFn perm search fitPredict d1 model_type
      = BaseModel_run splitTT sqrtFn perm search fitPredict d2 model_type ∧
    List.lookup "class_weight" svmParamGrid = some [HValue.VStr "balanced"] := by
  constructor
  · unfold BaseModel_run
    rw [hX, hy, hs]
  · rfl

theorem class_weighting_unused_witness :
    ((⟨[], [], [], [1, 2]⟩ : ExtractedData).X
        = (⟨[], [], [], [1, 3]⟩ : ExtractedData).X) ∧
    ((⟨[], [], [], [1, 2]⟩ : ExtractedData).y
        = (⟨[], [], [], [1, 3]⟩ : ExtractedData).y) ∧
    ((⟨[], [], [], [1, 2]⟩ : ExtractedData).sessions
        = (⟨[], [], [], [1, 3]⟩ : ExtractedData).sessions) ∧
    (BaseModel_run (fun _ _ _ => ⟨[], [], [], [], [], []⟩) (fun q => q) []
        (fun _ _ _ => []) (fun _ _ _ _ => 0) ⟨[], [], [], [1, 2]⟩ "svm"
      = BaseModel_run (fun _ _ _ => ⟨[], [], [], [], [], []⟩) (fun q => q) []
        (fun _ _ _ => []) (fun _ _ _ _ => 0) ⟨[], [], [], [1, 3]⟩ "svm" ∧
    List.lookup "class_weight" svmParamGrid = some [HValue.VStr "balanced"]) :=
  ⟨rfl, rfl, rfl,
    class_weighting_unused (fun _ _ _ => ⟨[], [], [], [], [], []⟩) (fun q => q) []
      (fun _ _ _ => []) (fun _ _ _ _ => 0)
      ⟨[], [], [], [1, 2]⟩ ⟨[], [], [], [1, 3]⟩ "svm" rfl rfl rfl⟩
